import Mathlib

/-!
Verification of the osiris bring-up / relocation / boot-info / trap-dispatch
layer against its design document.

The C sources are shallowly embedded: byte memory is a total function from
addresses to byte values, word memory (for the relocation pass over 32-bit
words) is a total function from word addresses to word values, machine
integers are natural numbers reduced modulo 2^32 (or 2^8 for bytes) exactly
where the C types force a wrap, and the external handler functions that the
dispatchers call are parameters of the embedding.
-/

namespace Osiris

/-- Pointwise update of a memory function at one address. -/
def fupd (f : Nat → Nat) (k v : Nat) : Nat → Nat :=
  fun a => if a = k then v else f a

theorem fupd_same (f : Nat → Nat) (k v : Nat) : fupd f k v k = v := by
  simp [fupd]

theorem fupd_other (f : Nat → Nat) (k v a : Nat) (h : a ≠ k) : fupd f k v a = f a := by
  simp [fupd, h]

/-- Embedding of memset from src/nlib/core.c: while (len--) writes the byte
(char)c at dst and advances. The stored value is c reduced to a byte. -/
def memset (mem : Nat → Nat) (dst c len : Nat) : Nat → Nat :=
  match len with
  | 0 => mem
  | Nat.succ l => memset (fupd mem dst (c % 256)) (dst + 1) c l

/-- Embedding of memcpy from src/nlib/core.c: a forward byte-by-byte copy
inside a single address space. -/
def memcpy (mem : Nat → Nat) (dst src len : Nat) : Nat → Nat :=
  match len with
  | 0 => mem
  | Nat.succ l => memcpy (fupd mem dst (mem src)) (dst + 1) (src + 1) l

/-- 32-bit pointer subtraction, as computed on uintptr values in the source. -/
def u32sub (a b : Nat) : Nat := (a + 4294967296 - b) % 4294967296

/-- The BSS stanza of _main in src/machine/arm/common/entry.c: compute the
span length from the linker symbols and call memset with zero when the
length is positive. -/
def bssZero (bssStart bssEnd : Nat) (mem : Nat → Nat) : Nat → Nat :=
  let bss_len := u32sub bssEnd bssStart
  if 0 < bss_len then memset mem bssStart 0 bss_len else mem

theorem memset_outside (len : Nat) : ∀ (dst c : Nat) (mem : Nat → Nat) (a : Nat),
    a < dst ∨ dst + len ≤ a → memset mem dst c len a = mem a := by
  induction len with
  | zero => intro dst c mem a _; rfl
  | succ l ih =>
      intro dst c mem a h
      simp only [memset]
      rw [ih (dst + 1) c _ a (by omega)]
      exact fupd_other mem dst (c % 256) a (by omega)

theorem memset_inside (len : Nat) : ∀ (dst c : Nat) (mem : Nat → Nat) (a : Nat),
    dst ≤ a → a < dst + len → memset mem dst c len a = c % 256 := by
  induction len with
  | zero => intro dst c mem a h1 h2; omega
  | succ l ih =>
      intro dst c mem a h1 h2
      simp only [memset]
      rcases Nat.eq_or_lt_of_le h1 with he | hlt
      · rw [memset_outside l (dst + 1) c _ a (by omega), ← he]
        exact fupd_same mem dst (c % 256)
      · exact ih (dst + 1) c _ a (by omega) (by omega)

theorem memcpy_outside (len : Nat) : ∀ (dst src : Nat) (mem : Nat → Nat) (a : Nat),
    a < dst ∨ dst + len ≤ a → memcpy mem dst src len a = mem a := by
  induction len with
  | zero => intro dst src mem a _; rfl
  | succ l ih =>
      intro dst src mem a h
      simp only [memcpy]
      rw [ih (dst + 1) (src + 1) _ a (by omega)]
      exact fupd_other mem dst (mem src) a (by omega)

theorem memcpy_copies (len : Nat) : ∀ (dst src : Nat) (mem : Nat → Nat) (i : Nat),
    i < len → (src + len ≤ dst ∨ dst + len ≤ src) →
    memcpy mem dst src len (dst + i) = mem (src + i) := by
  induction len with
  | zero => intro dst src mem i h _; omega
  | succ l ih =>
      intro dst src mem i h hdis
      simp only [memcpy]
      match i with
      | 0 =>
          rw [memcpy_outside l (dst + 1) (src + 1) _ (dst + 0) (by omega)]
          simpa using fupd_same mem dst (mem src)
      | Nat.succ j =>
          have h1 : dst + Nat.succ j = (dst + 1) + j := by omega
          have h2 : src + Nat.succ j = (src + 1) + j := by omega
          rw [h1, h2, ih (dst + 1) (src + 1) _ j (by omega) (by omega)]
          exact fupd_other mem dst (mem src) ((src + 1) + j) (by omega)

/-- C4: for every BSS span with bssEnd greater than bssStart, after the BSS
stanza of the bring-up sequencer _main has run, every byte in the span
[bssStart, bssEnd) reads as zero and every byte outside the span is
untouched; when bssEnd equals bssStart no byte changes at all. -/
theorem bss_zeroing (s e : Nat) (mem : Nat → Nat) (hse : s ≤ e) (he : e < 4294967296) :
    (∀ a, s ≤ a → a < e → bssZero s e mem a = 0) ∧
    (∀ a, a < s ∨ e ≤ a → bssZero s e mem a = mem a) ∧
    (e = s → ∀ a, bssZero s e mem a = mem a) := by
  have hlen : u32sub e s = e - s := by
    simp only [u32sub]
    omega
  refine ⟨?_, ?_, ?_⟩
  · intro a ha1 ha2
    simp only [bssZero, hlen]
    rw [if_pos (by omega)]
    simpa using memset_inside (e - s) s 0 mem a ha1 (by omega)
  · intro a ha
    simp only [bssZero, hlen]
    by_cases hpos : 0 < e - s
    · rw [if_pos hpos]
      exact memset_outside (e - s) s 0 mem a (by omega)
    · rw [if_neg hpos]
  · intro hes a
    subst hes
    simp only [bssZero, hlen, Nat.sub_self]
    rw [if_neg (by omega)]

theorem bss_zeroing_witness :
    bssZero 4 8 (fun _ => 255) 5 = 0 ∧ bssZero 4 8 (fun _ => 255) 3 = 255 :=
  ⟨(bss_zeroing 4 8 (fun _ => 255) (by decide) (by decide)).1 5 (by decide) (by decide),
   (bss_zeroing 4 8 (fun _ => 255) (by decide) (by decide)).2.1 3 (Or.inl (by decide))⟩

/-- A 32-bit word incremented by a signed delta, wrapping as uint32 addition
does in the source. -/
def wordAdd (x : Nat) (d : Int) : Nat := (((x : Int) + d) % 4294967296).toNat

/-- ELF32 relocation record, from src/machine/arm/common/entry.c. -/
structure Elf32Rel where
  r_offset : Nat
  r_info : Nat

/-- The low eight bits of the info word select the relocation kind. -/
def ELF32_R_TYPE (info : Nat) : Nat := info % 256

def R_ARM_RELATIVE : Nat := 23

/-- The record loop of relocate_got in src/machine/arm/common/entry.c over a
word-addressed memory: for each record whose kind is R_ARM_RELATIVE, the
32-bit word at its offset is incremented by the load delta; all other
records are skipped. -/
def processRels (d : Int) (rels : List Elf32Rel) (mem : Nat → Nat) : Nat → Nat :=
  match rels with
  | [] => mem
  | r :: rest =>
      processRels d rest
        (if ELF32_R_TYPE r.r_info = R_ARM_RELATIVE then
          fupd mem r.r_offset (wordAdd (mem r.r_offset) d)
        else mem)

/-- The target words of the load-address-relative records of a record set. -/
def relativeTargets (rels : List Elf32Rel) : List Nat :=
  (rels.filter (fun r => ELF32_R_TYPE r.r_info == R_ARM_RELATIVE)).map
    (fun r => r.r_offset)

theorem relativeTargets_cons (r : Elf32Rel) (rest : List Elf32Rel) :
    relativeTargets (r :: rest) =
      if ELF32_R_TYPE r.r_info = R_ARM_RELATIVE then
        r.r_offset :: relativeTargets rest
      else relativeTargets rest := by
  by_cases h : ELF32_R_TYPE r.r_info = R_ARM_RELATIVE <;>
    simp [relativeTargets, List.filter_cons, h]

theorem processRels_not_target : ∀ (rels : List Elf32Rel) (d : Int) (mem : Nat → Nat)
    (a : Nat), a ∉ relativeTargets rels → processRels d rels mem a = mem a := by
  intro rels
  induction rels with
  | nil => intro d mem a _; rfl
  | cons r rest ih =>
      intro d mem a ha
      rw [relativeTargets_cons] at ha
      simp only [processRels]
      by_cases h : ELF32_R_TYPE r.r_info = R_ARM_RELATIVE
      · rw [if_pos h] at ha ⊢
        have hne : a ≠ r.r_offset := fun hc => ha (by rw [hc]; exact List.mem_cons_self _ _)
        rw [ih d _ a (fun hc => ha (List.mem_cons_of_mem _ hc))]
        exact fupd_other mem r.r_offset _ a hne
      · rw [if_neg h] at ha ⊢
        exact ih d mem a ha

theorem processRels_target : ∀ (rels : List Elf32Rel) (d : Int) (mem : Nat → Nat)
    (a : Nat), (relativeTargets rels).Nodup → a ∈ relativeTargets rels →
    processRels d rels mem a = wordAdd (mem a) d := by
  intro rels
  induction rels with
  | nil => intro d mem a _ ha; simp [relativeTargets] at ha
  | cons r rest ih =>
      intro d mem a hnd ha
      rw [relativeTargets_cons] at hnd ha
      simp only [processRels]
      by_cases h : ELF32_R_TYPE r.r_info = R_ARM_RELATIVE
      · rw [if_pos h] at hnd ha ⊢
        rcases List.mem_cons.mp ha with he | hm
        · subst he
          rw [processRels_not_target rest d _ r.r_offset ((List.nodup_cons.mp hnd).1)]
          exact fupd_same mem r.r_offset _
        · have hne : a ≠ r.r_offset := by
            intro hc
            exact (List.nodup_cons.mp hnd).1 (hc ▸ hm)
          rw [ih d _ a ((List.nodup_cons.mp hnd).2) hm]
          rw [fupd_other mem r.r_offset _ a hne]
      · rw [if_neg h] at hnd ha ⊢
        exact ih d mem a hnd ha

/-- C5: for a relocation-record set whose load-address-relative records have
pairwise distinct target words, the record loop of the Relocation Engine
adds the load delta (as wrapping 32-bit addition) to exactly the target
word of every load-address-relative record; every word that is not the
target of a load-address-relative record, and in particular the target of
every record of any other kind, is left unchanged. -/
theorem rel_relative_exactness (d : Int) (rels : List Elf32Rel) (mem : Nat → Nat)
    (hnd : (relativeTargets rels).Nodup) :
    (∀ a, a ∈ relativeTargets rels → processRels d rels mem a = wordAdd (mem a) d) ∧
    (∀ a, a ∉ relativeTargets rels → processRels d rels mem a = mem a) ∧
    (∀ r, r ∈ rels → ELF32_R_TYPE r.r_info ≠ R_ARM_RELATIVE →
      r.r_offset ∉ relativeTargets rels →
      processRels d rels mem r.r_offset = mem r.r_offset) :=
  ⟨fun a ha => processRels_target rels d mem a hnd ha,
   fun a ha => processRels_not_target rels d mem a ha,
   fun r _ _ hr => processRels_not_target rels d mem r.r_offset hr⟩

theorem rel_relative_exactness_witness :
    processRels 5 [⟨100, 23⟩, ⟨104, 7⟩] (fun _ => 10) 100 = 15 ∧
    processRels 5 [⟨100, 23⟩, ⟨104, 7⟩] (fun _ => 10) 104 = 10 :=
  ⟨(rel_relative_exactness 5 [⟨100, 23⟩, ⟨104, 7⟩] (fun _ => 10) (by decide)).1 100
      (by decide),
   (rel_relative_exactness 5 [⟨100, 23⟩, ⟨104, 7⟩] (fun _ => 10) (by decide)).2.1 104
      (by decide)⟩

/-- The slot-fixup loop of _main in src/machine/cortex-m4/entry.c: starting
at slot index i, add the load offset (wrapping as uint32) to count
consecutive table slots. -/
def ivtAdjust (offset i count : Nat) (ram : Nat → Nat) : Nat → Nat :=
  match count with
  | 0 => ram
  | Nat.succ c => ivtAdjust offset (i + 1) c (fupd ram i ((ram i + offset) % 4294967296))

theorem ivtAdjust_outside (count : Nat) : ∀ (offset i : Nat) (ram : Nat → Nat) (a : Nat),
    a < i ∨ i + count ≤ a → ivtAdjust offset i count ram a = ram a := by
  induction count with
  | zero => intro offset i ram a _; rfl
  | succ c ih =>
      intro offset i ram a h
      simp only [ivtAdjust]
      rw [ih offset (i + 1) _ a (by omega)]
      exact fupd_other ram i _ a (by omega)

theorem ivtAdjust_inside (count : Nat) : ∀ (offset i : Nat) (ram : Nat → Nat) (a : Nat),
    i ≤ a → a < i + count → ivtAdjust offset i count ram a = (ram a + offset) % 4294967296 := by
  induction count with
  | zero => intro offset i ram a h1 h2; omega
  | succ c ih =>
      intro offset i ram a h1 h2
      simp only [ivtAdjust]
      rcases Nat.eq_or_lt_of_le h1 with he | hlt
      · rw [ivtAdjust_outside c offset (i + 1) _ a (by omega), ← he]
        exact fupd_same ram i _
      · rw [ih offset (i + 1) _ a (by omega) (by omega)]
        rw [fupd_other ram i _ a (by omega)]

/-- The internal actions of the IVT stanza of _main, in the order the source
performs them. -/
inductive IvtEvent where
  | copyTable
  | adjustSlots
  | vtorWrite
  | dsb
deriving DecidableEq

/-- The address of the vector-table-offset register written by the IVT
stanza. -/
def VTOR_ADDR : Nat := 0xE000ED08

/-- The IVT stanza of _main in src/machine/cortex-m4/entry.c, modelled at
word (slot) granularity. flash i is the word at slot i of the table at its
flash load location, ram i the word at slot i of the RAM location
starting at the address ivtStart, vtor the register at VTOR_ADDR. When the
table is nonempty and the load offset is nonzero, the source copies nBytes
bytes from flash to RAM (slot-wise here, which coincides for slot-aligned
lengths), adds the offset to every slot except slot zero, writes the RAM
table base address into the register, and issues a data synchronization
barrier; otherwise it does nothing. The event list records the actions in
source order. -/
def ivtRelocate (nBytes offset ivtStart : Nat) (flash ram : Nat → Nat) (vtor : Nat) :
    (Nat → Nat) × Nat × List IvtEvent :=
  if 0 < nBytes ∧ offset ≠ 0 then
    let n := nBytes / 4
    let copied := fun i => if i < n then flash i else ram i
    (ivtAdjust offset 1 (n - 1) copied, ivtStart,
      [IvtEvent.copyTable, IvtEvent.adjustSlots, IvtEvent.vtorWrite, IvtEvent.dsb])
  else
    (ram, vtor, [])

/-- C6: when the vector table is relocated with a nonzero load delta, slot
zero holds the flash value copied unchanged, every other slot of the copied
table holds its flash value plus the delta, slots beyond the table are
untouched, the vector-table-offset register receives the relocated table
base, and the recorded actions are copy, slot adjustment, register write
and data synchronization barrier, in that order; with delta zero the state
is returned untouched and no action is recorded. -/
theorem ivt_relocation (nBytes offset ivtStart : Nat) (flash ram : Nat → Nat) (vtor : Nat) :
    (offset ≠ 0 → 0 < nBytes → 4 ∣ nBytes →
      (ivtRelocate nBytes offset ivtStart flash ram vtor).1 0 = flash 0 ∧
      (∀ i, 1 ≤ i → i < nBytes / 4 →
        (ivtRelocate nBytes offset ivtStart flash ram vtor).1 i =
          (flash i + offset) % 4294967296) ∧
      (∀ i, nBytes / 4 ≤ i →
        (ivtRelocate nBytes offset ivtStart flash ram vtor).1 i = ram i) ∧
      (ivtRelocate nBytes offset ivtStart flash ram vtor).2.1 = ivtStart ∧
      (ivtRelocate nBytes offset ivtStart flash ram vtor).2.2 =
        [IvtEvent.copyTable, IvtEvent.adjustSlots, IvtEvent.vtorWrite, IvtEvent.dsb]) ∧
    (offset = 0 → ivtRelocate nBytes offset ivtStart flash ram vtor = (ram, vtor, [])) := by
  constructor
  · intro hoff hpos hdvd
    have hcond : 0 < nBytes ∧ offset ≠ 0 := ⟨hpos, hoff⟩
    have hn : 1 ≤ nBytes / 4 := by omega
    have heq : ivtRelocate nBytes offset ivtStart flash ram vtor =
        (ivtAdjust offset 1 (nBytes / 4 - 1)
           (fun i => if i < nBytes / 4 then flash i else ram i), ivtStart,
         [IvtEvent.copyTable, IvtEvent.adjustSlots, IvtEvent.vtorWrite, IvtEvent.dsb]) := by
      simp only [ivtRelocate, if_pos hcond]
    rw [heq]
    refine ⟨?_, ?_, ?_, rfl, rfl⟩
    · show ivtAdjust offset 1 (nBytes / 4 - 1)
          (fun i => if i < nBytes / 4 then flash i else ram i) 0 = flash 0
      rw [ivtAdjust_outside (nBytes / 4 - 1) offset 1 _ 0 (by omega)]
      show (if 0 < nBytes / 4 then flash 0 else ram 0) = flash 0
      rw [if_pos (by omega)]
    · intro i h1 h2
      show ivtAdjust offset 1 (nBytes / 4 - 1)
          (fun i => if i < nBytes / 4 then flash i else ram i) i =
        (flash i + offset) % 4294967296
      rw [ivtAdjust_inside (nBytes / 4 - 1) offset 1 _ i h1 (by omega)]
      show ((if i < nBytes / 4 then flash i else ram i) + offset) % 4294967296 =
        (flash i + offset) % 4294967296
      rw [if_pos h2]
    · intro i hi
      show ivtAdjust offset 1 (nBytes / 4 - 1)
          (fun i => if i < nBytes / 4 then flash i else ram i) i = ram i
      rw [ivtAdjust_outside (nBytes / 4 - 1) offset 1 _ i (by omega)]
      show (if i < nBytes / 4 then flash i else ram i) = ram i
      rw [if_neg (by omega)]
  · intro h0
    simp [ivtRelocate, h0]

theorem ivt_relocation_witness :
    (ivtRelocate 8 4 536870912 (fun i => 100 + i) (fun _ => 0) 0).1 1 = 105 ∧
    (ivtRelocate 8 4 536870912 (fun i => 100 + i) (fun _ => 0) 0).1 0 = 100 ∧
    (ivtRelocate 8 0 536870912 (fun i => 100 + i) (fun _ => 3) 7).2.2 = [] :=
  ⟨((ivt_relocation 8 4 536870912 (fun i => 100 + i) (fun _ => 0) 0).1 (by decide)
      (by decide) (by decide)).2.1 1 (by decide) (by decide),
   ((ivt_relocation 8 4 536870912 (fun i => 100 + i) (fun _ => 0) 0).1 (by decide)
      (by decide) (by decide)).1,
   by
     have h := (ivt_relocation 8 0 536870912 (fun i => 100 + i) (fun _ => 3) 7).2 rfl
     rw [h]⟩

/-- The GOT copy stanza of relocate_got in src/machine/arm/common/entry.c:
compute the region length from the linker symbols and, when positive, copy
that many bytes from the flash load address to the RAM region. -/
def gotCopy (gotStart gotEnd gotLoad : Nat) (mem : Nat → Nat) : Nat → Nat :=
  let got_len := u32sub gotEnd gotStart
  if 0 < got_len then memcpy mem gotStart gotLoad got_len else mem

/-- The load delta hardcoded in relocate_got in
src/machine/arm/common/entry.c: intptr_t offset = 0. -/
def relocGotOffset : Int := 0

theorem wordAdd_zero (x : Nat) (h : x < 4294967296) : wordAdd x 0 = x := by
  simp only [wordAdd, Int.add_zero]
  omega

theorem processRels_zero : ∀ (rels : List Elf32Rel) (mem : Nat → Nat),
    (∀ a, mem a < 4294967296) → ∀ a, processRels 0 rels mem a = mem a := by
  intro rels
  induction rels with
  | nil => intro mem _ a; rfl
  | cons r rest ih =>
      intro mem hb a
      simp only [processRels]
      by_cases h : ELF32_R_TYPE r.r_info = R_ARM_RELATIVE
      · rw [if_pos h, wordAdd_zero (mem r.r_offset) (hb r.r_offset)]
        have hb2 : ∀ b, fupd mem r.r_offset (mem r.r_offset) b < 4294967296 := by
          intro b
          by_cases hbo : b = r.r_offset
          · rw [hbo, fupd_same]; exact hb r.r_offset
          · rw [fupd_other mem _ _ b hbo]; exact hb b
        rw [ih _ hb2 a]
        by_cases hao : a = r.r_offset
        · rw [hao, fupd_same]
        · exact fupd_other mem _ _ a hao
      · rw [if_neg h]
        exact ih mem hb a

/-- C7: a run of the Relocation Engine at the load delta the source fixes
(zero) is a no-op on every relocated word: the GOT copy leaves the RAM GOT
region byte-identical to its flash-resident copy, the record loop at delta
zero changes no word of a memory of 32-bit words, and the vector-table
stanza at delta zero leaves the RAM table, the vector-table-offset register
and the action list untouched. -/
theorem relocation_delta_zero_noop (gotStart gotEnd gotLoad : Nat) (bmem : Nat → Nat)
    (rels : List Elf32Rel) (wmem : Nat → Nat)
    (nBytes ivtStart : Nat) (flash ram : Nat → Nat) (vtor : Nat) :
    (gotStart ≤ gotEnd → gotEnd < 4294967296 →
      (gotEnd ≤ gotLoad ∨ gotLoad + (gotEnd - gotStart) ≤ gotStart) →
      ∀ i, i < gotEnd - gotStart →
        gotCopy gotStart gotEnd gotLoad bmem (gotStart + i) = bmem (gotLoad + i)) ∧
    ((∀ a, wmem a < 4294967296) → ∀ a, processRels relocGotOffset rels wmem a = wmem a) ∧
    ivtRelocate nBytes 0 ivtStart flash ram vtor = (ram, vtor, []) := by
  refine ⟨?_, ?_, ?_⟩
  · intro h1 h2 h3 i hi
    have hlen : u32sub gotEnd gotStart = gotEnd - gotStart := by
      simp only [u32sub]; omega
    simp only [gotCopy, hlen]
    rw [if_pos (by omega)]
    exact memcpy_copies (gotEnd - gotStart) gotStart gotLoad bmem i hi (by omega)
  · intro hb a
    simp only [relocGotOffset]
    exact processRels_zero rels wmem hb a
  · simp [ivtRelocate]

theorem relocation_delta_zero_noop_witness :
    gotCopy 200 204 100 (fun a => a) 201 = 101 ∧
    processRels relocGotOffset [⟨100, 23⟩] (fun _ => 7) 100 = 7 ∧
    ivtRelocate 8 0 1 (fun _ => 2) (fun _ => 3) 9 = ((fun _ => 3), 9, []) :=
  ⟨(relocation_delta_zero_noop 200 204 100 (fun a => a) [⟨100, 23⟩] (fun _ => 7) 8 1
      (fun _ => 2) (fun _ => 3) 9).1 (by decide) (by decide) (Or.inr (by decide)) 1
      (by decide),
   (relocation_delta_zero_noop 200 204 100 (fun a => a) [⟨100, 23⟩] (fun _ => 7) 8 1
      (fun _ => 2) (fun _ => 3) 9).2.1 (fun a => by decide) 100,
   (relocation_delta_zero_noop 200 204 100 (fun a => a) [⟨100, 23⟩] (fun _ => 7) 8 1
      (fun _ => 2) (fun _ => 3) 9).2.2⟩

/-- The eight-slot saved-argument frame a supervisor-call exception hands to
the dispatchers (r0-r3, r12, lr, return address, xPSR), each slot a 32-bit
word. -/
abbrev Frame := Fin 8 → Nat

def frameSet (f : Frame) (k : Fin 8) (v : Nat) : Frame :=
  fun i => if i = k then v else f i

/-- The syscall-number decode shared by both dispatcher variants: the value
of the byte at the address two below the return address recorded in frame
slot 6, with 32-bit wraparound on the address arithmetic. This embeds the
assignment reading index -2 of the char pointer taken from svc_args[6]. -/
def svcDecode (mem : Nat → Nat) (frame : Frame) : Nat :=
  mem ((frame 6 + 4294967294) % 4294967296) % 256

/-- The two handlers of the generated syscall table. -/
inductive HandlerId where
  | reset
  | among
deriving DecidableEq

/-- Ghost record of one dispatcher-to-handler invocation: which handler was
called and with which argument count. -/
inductive SysEvent where
  | call : HandlerId → Nat → SysEvent
deriving DecidableEq

/-- The generated-table dispatcher _syscall_hndlr of
src/machine/cortex-m4/syscall.c with the table of
src/machine/cortex-m4/syscall.map.generated.h expanded: a switch on the
decoded number with a case per table entry, each case calling the entry
handler with the entry argument count and the frame pointer, and no default
case. The handlers are void C functions that may mutate the frame, so they
are parameters of type Nat to Frame to Frame; the event list records the
invocation the dispatcher performs. -/
def syscallHndlrM4 (reset among : Nat → Frame → Frame) (mem : Nat → Nat)
    (frame : Frame) : Frame × List SysEvent :=
  let svc_number := svcDecode mem frame
  if svc_number = 0 then (reset 0 frame, [SysEvent.call HandlerId.reset 0])
  else if svc_number = 1 then (among 1 frame, [SysEvent.call HandlerId.among 1])
  else (frame, [])

/-- Conversion of a C int return value to the unsigned 32-bit frame slot it
is stored into. -/
def intToU32 (i : Int) : Nat := (i % 4294967296).toNat

/-- One row of the syscall table: handler identity, syscall number, expected
argument count, as declared by the generated registry. -/
structure SyscallEntry where
  id : HandlerId
  number : Nat
  argc : Nat
deriving DecidableEq

/-- The generated syscall table of
src/machine/cortex-m4/syscall.map.generated.h: reset is number 0 with 0
arguments, among is number 1 with 1 argument. -/
def syscallTable : List SyscallEntry :=
  [⟨HandlerId.reset, 0, 0⟩, ⟨HandlerId.among, 1, 1⟩]

/-- Modelled from the spec: the kernel-side dispatcher handle_syscall is
declared extern in src/machine/arm/common/syscall.c and implemented outside
src. Per the design (section 4.4) it looks the syscall number up in the
syscall table and invokes the matching handler with the expected argument
count and the frame, returning the handler result; the ghost event list
records the invocation. The handler bodies are a parameter hmap. -/
def handle_syscall (hmap : HandlerId → Nat → Frame → Int × Frame)
    (svc_number : Nat) (frame : Frame) : Int × Frame × List SysEvent :=
  match syscallTable.find? (fun e => e.number == svc_number) with
  | some e => ((hmap e.id e.argc frame).1, (hmap e.id e.argc frame).2,
      [SysEvent.call e.id e.argc])
  | none => (0, frame, [])

/-- The delegating dispatcher _syscall_hndlr of
src/machine/arm/common/syscall.c: decode the number, call handle_syscall,
and store its int return value into slot 0 of the frame. -/
def syscallHndlrCommon (hmap : HandlerId → Nat → Frame → Int × Frame)
    (mem : Nat → Nat) (frame : Frame) : Frame × List SysEvent :=
  let svc_number := svcDecode mem frame
  let r := handle_syscall hmap svc_number frame
  (frameSet r.2.1 0 (intToU32 r.1), r.2.2)

/-- C2: for every syscall number present in the syscall table and every
eight-slot frame, the trap dispatcher (the delegating dispatcher composed
with the spec-modelled kernel table lookup) invokes exactly the handler the
table maps to that number, exactly once, passing the table entry expected
argument count, and after dispatch the handler return value, converted to
an unsigned 32-bit word, is stored in slot 0 of the frame, the other slots
being exactly as the handler produced them. -/
theorem trap_dispatch_correct (hmap : HandlerId → Nat → Frame → Int × Frame)
    (mem : Nat → Nat) (frame : Frame) (e : SyscallEntry)
    (he : e ∈ syscallTable) (hn : svcDecode mem frame = e.number) :
    syscallHndlrCommon hmap mem frame =
      (frameSet (hmap e.id e.argc frame).2 0 (intToU32 (hmap e.id e.argc frame).1),
       [SysEvent.call e.id e.argc]) := by
  have he2 : e = ⟨HandlerId.reset, 0, 0⟩ ∨ e = ⟨HandlerId.among, 1, 1⟩ := by
    simpa [syscallTable] using he
  rcases he2 with h | h <;> subst h <;>
    simp [syscallHndlrCommon, handle_syscall, syscallTable, hn, List.find?]

theorem trap_dispatch_correct_witness :
    syscallHndlrCommon (fun _ _ f => (9, f)) (fun a => if a = 98 then 1 else 0)
        (fun i => if i = 6 then 100 else 7) =
      (frameSet (fun i => if i = 6 then 100 else 7) 0 (intToU32 9),
       [SysEvent.call HandlerId.among 1]) :=
  trap_dispatch_correct (fun _ _ f => (9, f)) (fun a => if a = 98 then 1 else 0)
    (fun i => if i = 6 then 100 else 7) ⟨HandlerId.among, 1, 1⟩ (by decide) (by decide)

/-- C3 as stated is false: with return address 100 in frame slot 6, a byte
value 1 at address 98 and a byte value 0 at address 99, the dispatchers use
syscall number 1 (the byte two below the return address) and the
generated-table dispatcher invokes among accordingly, while the byte
immediately preceding the return address is 0. -/
theorem svc_decode_counterexample :
    svcDecode (fun a => if a = 98 then 1 else 0) (fun i => if i = 6 then 100 else 0) = 1 ∧
    (fun a => if a = 98 then 1 else 0) (100 - 1) % 256 = 0 ∧
    (syscallHndlrM4 (fun _ f => f) (fun _ f => f)
        (fun a => if a = 98 then 1 else 0) (fun i => if i = 6 then 100 else 0)).2 =
      [SysEvent.call HandlerId.among 1] ∧
    svcDecode (fun a => if a = 98 then 1 else 0) (fun i => if i = 6 then 100 else 0) ≠
      (fun a => if a = 98 then 1 else 0) (100 - 1) % 256 := by
  decide

/-- C3 amended: for every trap frame, the syscall number the dispatchers use
is the value of the byte located two bytes below the return address
recorded in frame slot 6 (the immediate byte of the two-byte SVC
instruction), not the byte immediately preceding the return address; the
generated-table dispatcher selects its case by exactly that byte. -/
theorem svc_decode_two_before_ra (reset among : Nat → Frame → Frame)
    (mem : Nat → Nat) (frame : Frame) :
    svcDecode mem frame = mem ((frame 6 + 4294967294) % 4294967296) % 256 ∧
    (mem ((frame 6 + 4294967294) % 4294967296) % 256 = 0 →
      (syscallHndlrM4 reset among mem frame).2 = [SysEvent.call HandlerId.reset 0]) ∧
    (mem ((frame 6 + 4294967294) % 4294967296) % 256 = 1 →
      (syscallHndlrM4 reset among mem frame).2 = [SysEvent.call HandlerId.among 1]) := by
  refine ⟨rfl, ?_, ?_⟩
  · intro h
    simp [syscallHndlrM4, svcDecode, h]
  · intro h
    simp [syscallHndlrM4, svcDecode, h]

theorem svc_decode_two_before_ra_witness :
    (syscallHndlrM4 (fun _ f => f) (fun _ f => f) (fun _ => 0) (fun _ => 5)).2 =
      [SysEvent.call HandlerId.reset 0] :=
  (svc_decode_two_before_ra (fun _ f => f) (fun _ f => f) (fun _ => 0)
    (fun _ => 5)).2.1 (by decide)

/-- C9: for every decoded syscall number other than 0 and 1 (the numbers
present in the generated table), the generated-table dispatcher falls
through its switch without a default case: it invokes no handler and
returns the frame with all eight slots unchanged. -/
theorem m4_dispatch_unknown_noop (reset among : Nat → Frame → Frame)
    (mem : Nat → Nat) (frame : Frame)
    (h0 : svcDecode mem frame ≠ 0) (h1 : svcDecode mem frame ≠ 1) :
    syscallHndlrM4 reset among mem frame = (frame, []) := by
  simp [syscallHndlrM4, h0, h1]

theorem m4_dispatch_unknown_noop_witness :
    syscallHndlrM4 (fun _ f => f) (fun _ f => f) (fun _ => 5) (fun _ => 0) =
      (((fun _ => 0) : Frame), ([] : List SysEvent)) :=
  m4_dispatch_unknown_noop (fun _ f => f) (fun _ f => f) (fun _ => 5) (fun _ => 0)
    (by decide) (by decide)

/-- The PendSV set bit of the interrupt control and state register. -/
def SCB_ICSR_PENDSVSET_Msk : Nat := 0x10000000

/-- reschedule from src/machine/arm/stm32l4xx/nucleo/sched.c, modelled on
the value of the ICSR register: the read-modify-write OR that sets the
PendSV pending bit (the instruction and data barriers that follow do not
change the register). -/
def reschedule (icsr : Nat) : Nat := icsr ||| SCB_ICSR_PENDSVSET_Msk

/-- C8: calling the reschedule trigger twice in a row before the pending
exception runs leaves the pending-exception register state identical to
calling it once: setting the PendSV bit by OR is idempotent, so only one
deferred context switch is requested. -/
theorem reschedule_idempotent (icsr : Nat) :
    reschedule (reschedule icsr) = reschedule icsr := by
  simp [reschedule, Nat.or_assoc]

/-- The processor identification strings stored by the boot-info producers,
modelled as symbols; a null pointer from zero initialization is none. -/
inductive IdString where
  | arm
  | cortexM4
deriving DecidableEq

/-- Memory map entry of src/interface/include/bindings.h (multiboot-style
packed layout: size, addr, length, ty). -/
structure MemMapEntry where
  size : Nat
  addr : Nat
  length : Nat
  ty : Nat
deriving DecidableEq

/-- Init program descriptor of src/interface/include/bindings.h. -/
structure InitDescriptor where
  begin : Nat
  len : Nat
  entry_offset : Nat
deriving DecidableEq

/-- Args of src/interface/include/bindings.h. -/
structure Args where
  init : InitDescriptor
deriving DecidableEq

/-- BootInfo of src/interface/include/bindings.h: magic, version,
implementer, variant, an eight-entry memory map with its length, and the
init program arguments. -/
structure BootInfo where
  magic : Nat
  version : Nat
  implementer : Option IdString
  variant : Option IdString
  mmap : Fin 8 → MemMapEntry
  mmap_len : Nat
  args : Args

def BOOT_INFO_MAGIC : Nat := 221566477

/-- The packed byte size of a MemMapEntry (4 + 8 + 8 + 4). -/
def sizeofMemMapEntry : Nat := 24

/-- The all-zero BootInfo produced by the memset in _main of
src/machine/arm/common/entry.c before init_boot_info runs. -/
def zeroBootInfo : BootInfo :=
  { magic := 0, version := 0, implementer := none, variant := none,
    mmap := fun _ => ⟨0, 0, 0, 0⟩, mmap_len := 0, args := ⟨⟨0, 0, 0⟩⟩ }

/-- init_boot_info from src/machine/startup/mcu/stm32l4r5xx/jumper.c: sets
the implementer and variant identification, the map length 3, and the three
SRAM region entries; it writes no other field. -/
def init_boot_info (boot_info : BootInfo) : BootInfo :=
  { boot_info with
    implementer := some IdString.arm
    variant := some IdString.cortexM4
    mmap_len := 3
    mmap := fun i =>
      if i = 0 then ⟨sizeofMemMapEntry, 0x20000000, 0x30000, 1⟩
      else if i = 1 then ⟨sizeofMemMapEntry, 0x20030000, 0x10000, 1⟩
      else if i = 2 then ⟨sizeofMemMapEntry, 0x20040000, 0x60000, 1⟩
      else boot_info.mmap i }

/-- The BootInfo instance the bring-up sequencer _main of
src/machine/arm/common/entry.c populates and passes to kernel_init: the
zero-filled structure after init_boot_info. -/
def bringupBootInfo : BootInfo := init_boot_info zeroBootInfo

/-- C1 as stated is false: the instance the bring-up layer produces and
passes to kernel_init satisfies the capacity bound, but its magic field is
0, not 221566477: no code in the bring-up chain ever writes the magic
sentinel. -/
theorem bringup_magic_counterexample :
    bringupBootInfo.mmap_len ≤ 8 ∧ bringupBootInfo.magic = 0 ∧
    bringupBootInfo.magic ≠ BOOT_INFO_MAGIC := by
  decide

/-- C1 amended: every BootInfo instance the bring-up layer produces and
passes to kernel_init has region count 3, within the capacity 8, and the
identification fields set, but the magic field keeps the value 0 written by
the zero fill: the sentinel 221566477 is never stored. -/
theorem bringup_boot_info_invariant :
    bringupBootInfo.mmap_len = 3 ∧ bringupBootInfo.mmap_len ≤ 8 ∧
    bringupBootInfo.implementer = some IdString.arm ∧
    bringupBootInfo.variant = some IdString.cortexM4 ∧
    bringupBootInfo.magic = 0 ∧ bringupBootInfo.version = 0 := by
  decide

/-- get_mem_map from src/machine/board/stm32-nucleo-l4r5zi/jumper.c: writes
the three SRAM entries at indices 0, 1 and 2 of the caller array and
returns 3; the max_size parameter is never read. -/
def get_mem_map (mem_map : Nat → MemMapEntry) (max_size : Nat) :
    (Nat → MemMapEntry) × Nat :=
  let m0 := fun i => if i = 0 then
    (⟨sizeofMemMapEntry, 0x20000000, 0x30000, 1⟩ : MemMapEntry) else mem_map i
  let m1 := fun i => if i = 1 then
    (⟨sizeofMemMapEntry, 0x20030000, 0x100000, 1⟩ : MemMapEntry) else m0 i
  let m2 := fun i => if i = 2 then
    (⟨sizeofMemMapEntry, 0x20040000, 0x60000, 1⟩ : MemMapEntry) else m1 i
  (m2, 3)

/-- C10: for every value of max_size, including values smaller than 3,
get_mem_map writes exactly three records at indices 0, 1 and 2 of the
output array and returns 3; every other index is untouched and the whole
result is independent of max_size, so the caller must provide capacity of
at least 3. -/
theorem get_mem_map_writes_three (mem_map : Nat → MemMapEntry) (max_size : Nat) :
    (get_mem_map mem_map max_size).2 = 3 ∧
    (get_mem_map mem_map max_size).1 0 = ⟨sizeofMemMapEntry, 0x20000000, 0x30000, 1⟩ ∧
    (get_mem_map mem_map max_size).1 1 = ⟨sizeofMemMapEntry, 0x20030000, 0x100000, 1⟩ ∧
    (get_mem_map mem_map max_size).1 2 = ⟨sizeofMemMapEntry, 0x20040000, 0x60000, 1⟩ ∧
    (∀ i, 3 ≤ i → (get_mem_map mem_map max_size).1 i = mem_map i) ∧
    (∀ other, get_mem_map mem_map max_size = get_mem_map mem_map other) := by
  refine ⟨rfl, rfl, rfl, rfl, ?_, fun other => rfl⟩
  intro i hi
  simp [get_mem_map, show i ≠ 0 by omega, show i ≠ 1 by omega, show i ≠ 2 by omega]

theorem get_mem_map_writes_three_witness :
    (get_mem_map (fun _ => ⟨0, 0, 0, 0⟩) 0).2 = 3 ∧
    (get_mem_map (fun _ => ⟨0, 0, 0, 0⟩) 0).1 5 = ⟨0, 0, 0, 0⟩ :=
  ⟨(get_mem_map_writes_three (fun _ => ⟨0, 0, 0, 0⟩) 0).1,
   (get_mem_map_writes_three (fun _ => ⟨0, 0, 0, 0⟩) 0).2.2.2.2.1 5 (by decide)⟩

end Osiris
